import Mathlib

/-!
Verification development for the clinical-fact extraction core of the
Disease_Treatment_API repository (`src/app.py`).

The embedding models, character for character, the pure computational core:
`clean_text`, `expand_terms`, `merge_medication_entities`, the record-assembly
loop of `extract_medications`, and the bucketing/deduplication logic of
`extract_tests`.  The spaCy labeler and `PhraseMatcher` are external
collaborators and are passed in as function parameters.  Python's
`UnboundLocalError` (reachable in `extract_medications` when an attribute
entity arrives before any valid drug) is made explicit through `Except`.
-/

namespace App

/-! ### Python string primitives, embedded over `List Char`

`re`'s `\s` class and `str.strip()`/`str.lower()` are modelled on their ASCII
fragment, which is the alphabet the program's logic cares about. -/

def isPySpace (c : Char) : Bool :=
  c = ' ' || c = '\t' || c = '\n' || c = '\r' || c = '\x0b' || c = '\x0c'

/-- Python `str.strip()` on a character list: drop whitespace at both ends. -/
def pyStripChars (l : List Char) : List Char :=
  ((l.dropWhile isPySpace).reverse.dropWhile isPySpace).reverse

/-- Python `str.strip()`. -/
def pyStrip (s : String) : String :=
  ⟨pyStripChars s.data⟩

def pyCharLower (c : Char) : Char :=
  if 'A' ≤ c ∧ c ≤ 'Z' then Char.ofNat (c.toNat + 32) else c

/-- Python `str.lower()` (ASCII fragment). -/
def pyLower (s : String) : String :=
  ⟨s.data.map pyCharLower⟩

/-- Python `str.split(",")`: cut at every comma, keeping empty pieces.
The first argument accumulates the current piece in reverse. -/
def splitCommaGo : List Char → List Char → List String
  | acc, [] => [⟨acc.reverse⟩]
  | acc, c :: rest =>
    if c = ',' then ⟨acc.reverse⟩ :: splitCommaGo [] rest
    else splitCommaGo (c :: acc) rest

def splitComma (s : String) : List String :=
  splitCommaGo [] s.data

/-! ### `clean_text` (src/app.py lines 106-109)

`re.sub(r'([a-z])([A-Z])', r'\1. \2', text)` scans left to right without
overlap; `re.sub(r'\s+', ' ', text)` collapses every whitespace run to a
single space; `.strip()` trims the ends. -/

/-- First substitution: insert ". " between a lowercase letter immediately
followed by an uppercase letter; both characters are consumed, matching
`re.sub`'s non-overlapping scan. -/
def insertBoundaries : List Char → List Char
  | a :: b :: rest =>
    if a.isLower && b.isUpper then a :: '.' :: ' ' :: b :: insertBoundaries rest
    else a :: insertBoundaries (b :: rest)
  | l => l

/-- Second substitution: each maximal whitespace run becomes one `' '`.
The boolean records whether we are inside a whitespace run. -/
def collapseGo : Bool → List Char → List Char
  | _, [] => []
  | inSpace, c :: rest =>
    if isPySpace c then
      if inSpace then collapseGo true rest else ' ' :: collapseGo true rest
    else c :: collapseGo false rest

/-- `clean_text` from src/app.py. -/
def clean_text (s : String) : String :=
  ⟨pyStripChars (collapseGo false (insertBoundaries s.data))⟩

/-! ### `expand_terms` (src/app.py lines 21-29)

For each non-null cell: split on `","`, strip each piece, keep non-empty
pieces; finally `sorted(set(all_terms))`.  Python's `sorted` on strings is
lexicographic on code points, embedded by `pySort` below. -/

/-- Lexicographic (code-point) string comparison, as used by Python `sorted`. -/
def charListLe : List Char → List Char → Bool
  | [], _ => true
  | _ :: _, [] => false
  | a :: as, b :: bs => if a < b then true else if b < a then false else charListLe as bs

def pyStrLe (s t : String) : Bool :=
  charListLe s.data t.data

def insertSorted (s : String) : List String → List String
  | [] => [s]
  | t :: rest => if pyStrLe s t then s :: t :: rest else t :: insertSorted s rest

/-- Ascending sort by code-point order (insertion sort). -/
def pySort : List String → List String
  | [] => []
  | s :: rest => insertSorted s (pySort rest)

/-- `expand_terms` from src/app.py; a null cell of the pandas series is
`none`, which `dropna` removes. -/
def expand_terms (series : List (Option String)) : List String :=
  pySort ((series.filterMap id).flatMap
    (fun cell => ((splitComma cell).map pyStrip).filter (fun t => t ≠ ""))).dedup

/-! ### `merge_medication_entities` (src/app.py lines 111-126) -/

/-- A spaCy entity span: label, surface text, token start/end boundaries. -/
structure EntitySpan where
  label : String
  text : String
  start : Nat
  «end» : Nat
deriving Repr, DecidableEq

/-- The scan loop with its `skip_next` flag: the boolean argument is
`skip_next`, the lookahead `doc.ents[i+1]` is the head of the tail. -/
def mergeGo : Bool → List EntitySpan → List (String × String)
  | _, [] => []
  | true, _ :: rest => mergeGo false rest
  | false, e :: rest =>
    match rest with
    | [] => [(e.label, e.text)]
    | e' :: _ =>
      if e'.start = e.«end» then
        (e.label, e.text ++ " " ++ e'.text) :: mergeGo true rest
      else
        (e.label, e.text) :: mergeGo false rest

/-- `merge_medication_entities` from src/app.py. -/
def merge_medication_entities (ents : List EntitySpan) : List (String × String) :=
  mergeGo false ents

/-! ### `extract_medications` (src/app.py lines 50-77)

The Python loop mutates `medications` (a list of dicts) through the alias
`current_med`; this is modelled by carrying the index of the current record.
`current_med` is a local variable that is *only* assigned inside the `DRUG`
branch, so reading it in the attribute branch before any valid drug raises
`UnboundLocalError`; the index is therefore an `Option Nat`, `none` meaning
"never assigned", and reading `none` produces the explicit error below. -/

structure MedicationRecord where
  drug : String
  strength : Option String := none
  form : Option String := none
  dosage : Option String := none
  route : Option String := none
  frequency : Option String := none
  duration : Option String := none
deriving Repr, DecidableEq

inductive PyError where
  | unboundLocal
deriving Repr, DecidableEq

def INVALID_DRUGS : List String := ["generic"]

def attrLabels : List String :=
  ["STRENGTH", "FORM", "DOSAGE", "ROUTE", "FREQUENCY", "DURATION"]

/-- `current_med[label.lower()] = ent_text`: assign the field named by the
lowercased label.  Note the assignment is unconditional (it overwrites). -/
def setAttr (m : MedicationRecord) (label text : String) : MedicationRecord :=
  match label with
  | "STRENGTH" => { m with strength := some text }
  | "FORM" => { m with form := some text }
  | "DOSAGE" => { m with dosage := some text }
  | "ROUTE" => { m with route := some text }
  | "FREQUENCY" => { m with frequency := some text }
  | "DURATION" => { m with duration := some text }
  | _ => m

/-- `next((m for m in medications if m.get("drug", "").lower() == drug_name.lower()), None)`,
returning the index of the first record whose drug name matches
case-insensitively. -/
def findDrugIdx (meds : List MedicationRecord) (nameLower : String) : Option Nat :=
  match meds with
  | [] => none
  | m :: rest =>
    if pyLower m.drug = nameLower then some 0
    else (findDrugIdx rest nameLower).map (· + 1)

/-- In-place update of the list element `current_med` aliases. -/
def modifyAt : List α → Nat → (α → α) → List α
  | [], _, _ => []
  | a :: rest, 0, f => f a :: rest
  | a :: rest, n + 1, f => a :: modifyAt rest n f

/-- One iteration of the `for label, ent_text in ents` loop. -/
def medStep (meds : List MedicationRecord) (cur : Option Nat) (label entText : String) :
    Except PyError (List MedicationRecord × Option Nat) :=
  if label = "DRUG" then
    if pyLower (pyStrip entText) ∈ INVALID_DRUGS then .ok (meds, cur)
    else
      match findDrugIdx meds (pyLower (pyStrip entText)) with
      | some i => .ok (meds, some i)
      | none => .ok (meds ++ [{ drug := pyStrip entText }], some meds.length)
  else if label ∈ attrLabels then
    match cur with
    | none => .error .unboundLocal
    | some i => .ok (modifyAt meds i (fun m => setAttr m label entText), some i)
  else .ok (meds, cur)

def assembleGo : List MedicationRecord → Option Nat → List (String × String) →
    Except PyError (List MedicationRecord)
  | meds, _, [] => .ok meds
  | meds, cur, e :: rest =>
    match medStep meds cur e.1 e.2 with
    | .error err => .error err
    | .ok (meds', cur') => assembleGo meds' cur' rest

/-- The record-assembly pass plus the final `return medications or None`. -/
def assemble (ents : List (String × String)) :
    Except PyError (Option (List MedicationRecord)) :=
  match assembleGo [] none ents with
  | .error err => .error err
  | .ok meds => .ok (if meds.isEmpty then none else some meds)

/-- `extract_medications` from src/app.py, parameterized by the external
labeler (`nlp_med7`), which turns the cleaned text into an ordered span
sequence. -/
def extract_medications (label : String → List EntitySpan) (text : String) :
    Except PyError (Option (List MedicationRecord)) :=
  assemble (merge_medication_entities (label (clean_text text)))

/-! ### `extract_tests` (src/app.py lines 79-100)

The spaCy `PhraseMatcher` is an external collaborator: it receives the rule
set that was `add`ed (one rule per non-empty term list) and the cleaned text,
and returns `(rule_label, matched_span_text)` pairs. -/

abbrev Matcher : Type :=
  List (String × List String) → String → List (String × String)

/-- The rules added to the matcher: one per non-empty term list. -/
def testPatterns (pathology_terms radiology_terms : List String) :
    List (String × List String) :=
  (if pathology_terms.isEmpty then [] else [("PATHOLOGY TEST", pathology_terms)]) ++
  (if radiology_terms.isEmpty then [] else [("RADIOLOGY TEST", radiology_terms)])

/-- `extract_tests` from src/app.py: bucket matches by rule label, then
`list(set(...)) or None` per bucket. -/
def extract_tests (matcher : Matcher) (text : String)
    (pathology_terms radiology_terms : List String) :
    Option (List String) × Option (List String) :=
  let ms := matcher (testPatterns pathology_terms radiology_terms) (clean_text text)
  let patho := (ms.filter (fun p => p.1 = "PATHOLOGY TEST")).map Prod.snd
  let radio := (ms.filter (fun p => p.1 = "RADIOLOGY TEST")).map Prod.snd
  (if patho.dedup.isEmpty then none else some patho.dedup,
   if radio.dedup.isEmpty then none else some radio.dedup)

/-! ### Derived predicates on the merged entity stream -/

/-- A `DRUG` entity whose stripped name is on the block list: the assembly
loop skips it without touching any state. -/
def isBlockedDrug (e : String × String) : Bool :=
  decide (e.1 = "DRUG" ∧ pyLower (pyStrip e.2) ∈ INVALID_DRUGS)

/-- A `DRUG` entity that passes the block-list filter. -/
def isValidDrugEnt (e : String × String) : Bool :=
  decide (e.1 = "DRUG" ∧ pyLower (pyStrip e.2) ∉ INVALID_DRUGS)

/-- An attribute-labeled entity. -/
def isAttrEnt (e : String × String) : Bool :=
  decide (e.1 ∈ attrLabels)

/-- No attribute entity occurs before the first valid drug entity — the
condition under which the assembly loop cannot hit `UnboundLocalError`. -/
def noOrphanAttr : List (String × String) → Bool
  | [] => true
  | e :: rest =>
    if isValidDrugEnt e then true
    else if isAttrEnt e then false
    else noOrphanAttr rest

/-- The merge pass exactly as claim C6 describes it: scan left to right;
when span `i+1`'s start equals span `i`'s end, emit one entity with span
`i`'s label and the two texts joined by one space and skip span `i+1`
(the merged entity is not itself merged with span `i+2`); otherwise the
span passes through unmerged. -/
def mergeAdjacentSpec : List EntitySpan → List (String × String)
  | [] => []
  | [e] => [(e.label, e.text)]
  | e :: e' :: rest =>
    if e'.start = e.«end» then
      (e.label, e.text ++ " " ++ e'.text) :: mergeAdjacentSpec rest
    else
      (e.label, e.text) :: mergeAdjacentSpec (e' :: rest)

/-! ## Helper lemmas -/

lemma pyStrLe_total (s t : String) : pyStrLe s t = true ∨ pyStrLe t s = true := by
  unfold pyStrLe
  generalize s.data = as
  generalize t.data = bs
  induction as generalizing bs with
  | nil => left; rfl
  | cons a as ih =>
    cases bs with
    | nil => right; rfl
    | cons b bs =>
      by_cases h1 : a < b
      · left; simp [charListLe, h1]
      · by_cases h2 : b < a
        · right; simp [charListLe, h2]
        · rcases ih bs with h | h
          · left; simp [charListLe, h1, h2, h]
          · right; simp [charListLe, h1, h2, h]

lemma insertSorted_head? (s : String) (l : List String) :
    (insertSorted s l).head? = some s ∨ (insertSorted s l).head? = l.head? := by
  cases l with
  | nil => left; rfl
  | cons t r =>
    by_cases h : pyStrLe s t = true
    · left; simp [insertSorted, h]
    · right; simp [insertSorted, h]

lemma chain_insertSorted (s : String) (l : List String)
    (h : List.Chain' (fun a b => pyStrLe a b = true) l) :
    List.Chain' (fun a b => pyStrLe a b = true) (insertSorted s l) := by
  induction l with
  | nil => simp [insertSorted]
  | cons t rest ih =>
    simp only [insertSorted]
    by_cases hst : pyStrLe s t = true
    · rw [if_pos hst]
      exact List.chain'_cons.2 ⟨hst, h⟩
    · rw [if_neg hst]
      have hts : pyStrLe t s = true := (pyStrLe_total s t).resolve_left hst
      have hrest : List.Chain' (fun a b => pyStrLe a b = true) rest :=
        (List.chain'_cons'.1 h).2
      refine List.chain'_cons'.2 ⟨?_, ih hrest⟩
      intro y hy
      rcases insertSorted_head? s rest with hh | hh
      · rw [hh] at hy
        cases hy
        exact hts
      · rw [hh] at hy
        exact (List.chain'_cons'.1 h).1 y hy

lemma pySort_chain (l : List String) :
    List.Chain' (fun a b => pyStrLe a b = true) (pySort l) := by
  induction l with
  | nil => simp [pySort]
  | cons s rest ih => exact chain_insertSorted s _ ih

lemma insertSorted_perm (s : String) (l : List String) :
    List.Perm (insertSorted s l) (s :: l) := by
  induction l with
  | nil => rfl
  | cons t rest ih =>
    simp only [insertSorted]
    by_cases h : pyStrLe s t = true
    · rw [if_pos h]
    · rw [if_neg h]
      exact (ih.cons t).trans (List.Perm.swap s t rest)

lemma pySort_perm (l : List String) : List.Perm (pySort l) l := by
  induction l with
  | nil => rfl
  | cons s rest ih =>
    exact (insertSorted_perm s (pySort rest)).trans (ih.cons s)

lemma setAttr_drug (m : MedicationRecord) (label text : String) :
    (setAttr m label text).drug = m.drug := by
  unfold setAttr
  split <;> rfl

lemma modifyAt_map {α : Type} {β : Type} (g : α → β) (f : α → α)
    (hf : ∀ a, g (f a) = g a) :
    ∀ (l : List α) (i : Nat), (modifyAt l i f).map g = l.map g := by
  intro l
  induction l with
  | nil => intro i; rfl
  | cons a rest ih =>
    intro i
    cases i with
    | zero => simp [modifyAt, hf]
    | succ n => simp [modifyAt, ih n]

lemma modifyAt_length {α : Type} (f : α → α) :
    ∀ (l : List α) (i : Nat), (modifyAt l i f).length = l.length := by
  intro l
  induction l with
  | nil => intro i; rfl
  | cons a rest ih =>
    intro i
    cases i with
    | zero => simp [modifyAt]
    | succ n => simp [modifyAt, ih n]

lemma findDrugIdx_none {meds : List MedicationRecord} {nl : String}
    (h : findDrugIdx meds nl = none) : ∀ m ∈ meds, pyLower m.drug ≠ nl := by
  induction meds with
  | nil => simp
  | cons m rest ih =>
    unfold findDrugIdx at h
    by_cases hm : pyLower m.drug = nl
    · rw [if_pos hm] at h; nomatch h
    · rw [if_neg hm] at h
      have h' : findDrugIdx rest nl = none := by
        cases hfi : findDrugIdx rest nl with
        | none => rfl
        | some k => rw [hfi] at h; nomatch h
      intro x hx
      rcases List.mem_cons.1 hx with rfl | hx
      · exact hm
      · exact ih h' x hx

lemma bool_eq_false {b : Bool} (h : ¬b = true) : b = false := by
  cases b with
  | false => rfl
  | true => exact absurd rfl h

/-- Explicit evaluation of `medStep` in each of its five branches. -/
lemma medStep_eq_blocked {label t : String} (hd : label = "DRUG")
    (hbl : pyLower (pyStrip t) ∈ INVALID_DRUGS)
    (meds : List MedicationRecord) (cur : Option Nat) :
    medStep meds cur label t = .ok (meds, cur) := by
  unfold medStep; rw [if_pos hd, if_pos hbl]

lemma medStep_eq_found {label t : String} {i : Nat} (hd : label = "DRUG")
    (hbl : pyLower (pyStrip t) ∉ INVALID_DRUGS)
    {meds : List MedicationRecord}
    (hfi : findDrugIdx meds (pyLower (pyStrip t)) = some i) (cur : Option Nat) :
    medStep meds cur label t = .ok (meds, some i) := by
  unfold medStep; rw [if_pos hd, if_neg hbl, hfi]

lemma medStep_eq_new {label t : String} (hd : label = "DRUG")
    (hbl : pyLower (pyStrip t) ∉ INVALID_DRUGS)
    {meds : List MedicationRecord}
    (hfi : findDrugIdx meds (pyLower (pyStrip t)) = none) (cur : Option Nat) :
    medStep meds cur label t =
      .ok (meds ++ [{ drug := pyStrip t }], some meds.length) := by
  unfold medStep; rw [if_pos hd, if_neg hbl, hfi]

lemma medStep_eq_attr {label : String} (hd : label ≠ "DRUG") (hat : label ∈ attrLabels)
    (t : String) (meds : List MedicationRecord) (i : Nat) :
    medStep meds (some i) label t =
      .ok (modifyAt meds i (fun m => setAttr m label t), some i) := by
  unfold medStep; rw [if_neg hd, if_pos hat]

lemma medStep_eq_attr_none {label : String} (hd : label ≠ "DRUG")
    (hat : label ∈ attrLabels) (t : String) (meds : List MedicationRecord) :
    medStep meds none label t = .error .unboundLocal := by
  unfold medStep; rw [if_neg hd, if_pos hat]

lemma medStep_eq_other {label : String} (hd : label ≠ "DRUG") (hat : label ∉ attrLabels)
    (t : String) (meds : List MedicationRecord) (cur : Option Nat) :
    medStep meds cur label t = .ok (meds, cur) := by
  unfold medStep; rw [if_neg hd, if_neg hat]

/-- Effect of one loop iteration on the multiset of lowercased drug names:
either it is unchanged, or a record with a fresh, non-blocked drug name is
appended. -/
lemma medStep_ok_cases {meds : List MedicationRecord} {cur : Option Nat}
    {label t : String} {meds' : List MedicationRecord} {cur' : Option Nat}
    (h : medStep meds cur label t = .ok (meds', cur')) :
    meds'.map (fun m => pyLower m.drug) = meds.map (fun m => pyLower m.drug) ∨
    (∃ name, pyLower name ∉ INVALID_DRUGS ∧
      (∀ m ∈ meds, pyLower m.drug ≠ pyLower name) ∧
      meds' = meds ++ [{ drug := name }]) := by
  by_cases hd : label = "DRUG"
  · by_cases hbl : pyLower (pyStrip t) ∈ INVALID_DRUGS
    · rw [medStep_eq_blocked hd hbl, Except.ok.injEq, Prod.mk.injEq] at h
      left; rw [← h.1]
    · cases hfi : findDrugIdx meds (pyLower (pyStrip t)) with
      | some i =>
        rw [medStep_eq_found hd hbl hfi, Except.ok.injEq, Prod.mk.injEq] at h
        left; rw [← h.1]
      | none =>
        rw [medStep_eq_new hd hbl hfi, Except.ok.injEq, Prod.mk.injEq] at h
        right
        exact ⟨pyStrip t, hbl, findDrugIdx_none hfi, h.1.symm⟩
  · by_cases hat : label ∈ attrLabels
    · cases cur with
      | none => rw [medStep_eq_attr_none hd hat] at h; nomatch h
      | some i =>
        rw [medStep_eq_attr hd hat, Except.ok.injEq, Prod.mk.injEq] at h
        left
        rw [← h.1]
        exact modifyAt_map _ _ (fun a => by rw [setAttr_drug]) meds _
    · rw [medStep_eq_other hd hat, Except.ok.injEq, Prod.mk.injEq] at h
      left; rw [← h.1]

/-- Loop invariant of the assembly pass: pairwise case-insensitively distinct
drug names, and no block-listed drug name, are preserved to the final list. -/
lemma assembleGo_inv :
    ∀ (ents : List (String × String)) (meds : List MedicationRecord)
      (cur : Option Nat) (recs : List MedicationRecord),
      assembleGo meds cur ents = .ok recs →
      List.Pairwise (fun a b => pyLower a.drug ≠ pyLower b.drug) meds →
      (∀ m ∈ meds, pyLower m.drug ∉ INVALID_DRUGS) →
      List.Pairwise (fun a b => pyLower a.drug ≠ pyLower b.drug) recs ∧
      (∀ m ∈ recs, pyLower m.drug ∉ INVALID_DRUGS) := by
  intro ents
  induction ents with
  | nil =>
    intro meds cur recs h h5 h7
    rw [show assembleGo meds cur [] = .ok meds from rfl, Except.ok.injEq] at h
    subst h
    exact ⟨h5, h7⟩
  | cons e rest ih =>
    intro meds cur recs h h5 h7
    simp only [assembleGo] at h
    split at h
    · nomatch h
    · next meds' cur' hstep =>
      rcases medStep_ok_cases hstep with hmap | ⟨name, hninv, hfresh, happ⟩
      · apply ih meds' cur' recs h
        · have h5m : (meds.map fun m => pyLower m.drug).Pairwise (· ≠ ·) :=
            (List.pairwise_map).2 h5
          rw [← hmap] at h5m
          exact (List.pairwise_map).1 h5m
        · intro m hm
          have hmem : pyLower m.drug ∈ meds'.map fun m => pyLower m.drug :=
            List.mem_map_of_mem _ hm
          rw [hmap] at hmem
          obtain ⟨m₀, hm₀, heq⟩ := List.mem_map.1 hmem
          rw [← heq]
          exact h7 m₀ hm₀
      · subst happ
        apply ih _ cur' recs h
        · refine List.pairwise_append.2 ⟨h5, by simp, ?_⟩
          intro a ha b hb
          rw [List.mem_singleton.1 hb]
          exact hfresh a ha
        · intro m hm
          rcases List.mem_append.1 hm with hm | hm
          · exact h7 m hm
          · rw [List.mem_singleton.1 hm]
            exact hninv

/-- Unpack a successful `extract_medications` run down to the assembly loop. -/
lemma extract_ok_meds {label : String → List EntitySpan} {text : String}
    {recs : List MedicationRecord}
    (h : extract_medications label text = .ok (some recs)) :
    assembleGo [] none (merge_medication_entities (label (clean_text text))) = .ok recs := by
  unfold extract_medications assemble at h
  split at h
  · nomatch h
  · next meds heq =>
    rw [Except.ok.injEq] at h
    cases meds with
    | nil => nomatch h
    | cons a l =>
      simp only [List.isEmpty_cons, Bool.false_eq_true, if_false] at h
      rw [Option.some.injEq] at h
      rw [← h]
      exact heq

/-- The attribute branch can only fault when the current-record pointer was
never assigned; with a current record every step succeeds and the record
list never shrinks. -/
lemma medStep_some (meds : List MedicationRecord) (i : Nat) (label t : String) :
    ∃ meds' j, medStep meds (some i) label t = .ok (meds', some j) ∧
      meds.length ≤ meds'.length := by
  by_cases hd : label = "DRUG"
  · by_cases hbl : pyLower (pyStrip t) ∈ INVALID_DRUGS
    · exact ⟨meds, i, medStep_eq_blocked hd hbl meds _, Nat.le_refl _⟩
    · cases hfi : findDrugIdx meds (pyLower (pyStrip t)) with
      | some k => exact ⟨meds, k, medStep_eq_found hd hbl hfi _, Nat.le_refl _⟩
      | none =>
        refine ⟨meds ++ [{ drug := pyStrip t }], meds.length,
          medStep_eq_new hd hbl hfi _, ?_⟩
        simp
  · by_cases hat : label ∈ attrLabels
    · exact ⟨modifyAt meds i (fun m => setAttr m label t), i,
        medStep_eq_attr hd hat t meds i,
        Nat.le_of_eq (modifyAt_length _ meds i).symm⟩
    · exact ⟨meds, i, medStep_eq_other hd hat t meds _, Nat.le_refl _⟩

lemma assembleGo_isSome :
    ∀ (ents : List (String × String)) (meds : List MedicationRecord) (i : Nat),
      ∃ recs, assembleGo meds (some i) ents = .ok recs ∧ meds.length ≤ recs.length := by
  intro ents
  induction ents with
  | nil => intro meds i; exact ⟨meds, rfl, Nat.le_refl _⟩
  | cons e rest ih =>
    intro meds i
    obtain ⟨meds', j, hstep, hlen⟩ := medStep_some meds i e.1 e.2
    obtain ⟨recs, hrec, hlen'⟩ := ih meds' j
    refine ⟨recs, ?_, Nat.le_trans hlen hlen'⟩
    simp only [assembleGo, hstep]
    exact hrec

/-- An entity that is neither a valid drug nor an attribute leaves the loop
state untouched (this covers block-listed drugs and foreign labels). -/
lemma medStep_inert {label t : String}
    (hv : isValidDrugEnt (label, t) = false) (ha : isAttrEnt (label, t) = false)
    (meds : List MedicationRecord) (cur : Option Nat) :
    medStep meds cur label t = .ok (meds, cur) := by
  by_cases hd : label = "DRUG"
  · have hblocked : pyLower (pyStrip t) ∈ INVALID_DRUGS := by
      simp only [isValidDrugEnt, decide_eq_false_iff_not, not_and] at hv
      exact Decidable.not_not.1 (hv hd)
    exact medStep_eq_blocked hd hblocked meds cur
  · have hattr : label ∉ attrLabels := by
      simpa only [isAttrEnt, decide_eq_false_iff_not] using ha
    exact medStep_eq_other hd hattr t meds cur

lemma assembleGo_all_inert :
    ∀ (ents : List (String × String)),
      (∀ e ∈ ents, isValidDrugEnt e = false) → noOrphanAttr ents = true →
      ∀ (meds : List MedicationRecord) (cur : Option Nat),
        assembleGo meds cur ents = .ok meds := by
  intro ents
  induction ents with
  | nil => intros; rfl
  | cons e rest ih =>
    intro hval hno meds cur
    have hv : isValidDrugEnt e = false := hval e (List.mem_cons_self e rest)
    rw [noOrphanAttr, if_neg (by rw [hv]; exact Bool.false_ne_true)] at hno
    have ha : isAttrEnt e = false := by
      by_cases h : isAttrEnt e = true
      · rw [if_pos h] at hno; nomatch hno
      · exact bool_eq_false h
    rw [if_neg (by rw [ha]; exact Bool.false_ne_true)] at hno
    obtain ⟨l, t⟩ := e
    simp only [assembleGo, medStep_inert hv ha]
    exact ih (fun x hx => hval x (List.mem_cons_of_mem _ hx)) hno meds cur

lemma assemble_has_valid :
    ∀ (ents : List (String × String)), noOrphanAttr ents = true →
      (∃ e ∈ ents, isValidDrugEnt e = true) →
      ∃ recs, assembleGo [] none ents = .ok recs ∧ recs ≠ [] := by
  intro ents
  induction ents with
  | nil => rintro _ ⟨e, he, _⟩; exact absurd he (List.not_mem_nil e)
  | cons e rest ih =>
    intro hno hex
    by_cases hv : isValidDrugEnt e = true
    · obtain ⟨label, t⟩ := e
      simp only [isValidDrugEnt, decide_eq_true_eq] at hv
      obtain ⟨hd, hninv⟩ := hv
      subst hd
      have hstep : medStep [] none "DRUG" t = .ok ([{ drug := pyStrip t }], some 0) :=
        @medStep_eq_new "DRUG" t rfl hninv [] rfl none
      obtain ⟨recs, hrec, hlen⟩ := assembleGo_isSome rest [{ drug := pyStrip t }] 0
      refine ⟨recs, ?_, ?_⟩
      · simp only [assembleGo, hstep]
        exact hrec
      · intro hnil
        subst hnil
        simp at hlen
    · have hv' : isValidDrugEnt e = false := bool_eq_false hv
      rw [noOrphanAttr, if_neg (by rw [hv']; exact Bool.false_ne_true)] at hno
      have ha : isAttrEnt e = false := by
        by_cases h : isAttrEnt e = true
        · rw [if_pos h] at hno; nomatch hno
        · exact bool_eq_false h
      rw [if_neg (by rw [ha]; exact Bool.false_ne_true)] at hno
      have hex' : ∃ x ∈ rest, isValidDrugEnt x = true := by
        obtain ⟨x, hx, hxv⟩ := hex
        rcases List.mem_cons.1 hx with rfl | hx
        · exact absurd hxv hv
        · exact ⟨x, hx, hxv⟩
      obtain ⟨recs, hrec, hne⟩ := ih hno hex'
      obtain ⟨l, t⟩ := e
      refine ⟨recs, ?_, hne⟩
      simp only [assembleGo, medStep_inert hv' ha]
      exact hrec

/-- Block-listed `DRUG` entities are processed exactly as if they were absent
from the entity stream. -/
lemma assembleGo_filter_blocked :
    ∀ (ents : List (String × String)) (meds : List MedicationRecord) (cur : Option Nat),
      assembleGo meds cur (ents.filter (fun e => !isBlockedDrug e)) =
        assembleGo meds cur ents := by
  intro ents
  induction ents with
  | nil => intros; rfl
  | cons e rest ih =>
    intro meds cur
    by_cases hb : isBlockedDrug e = true
    · have hstep : medStep meds cur e.1 e.2 = .ok (meds, cur) := by
        obtain ⟨l, t⟩ := e
        simp only [isBlockedDrug, decide_eq_true_eq] at hb
        exact medStep_eq_blocked hb.1 hb.2 meds cur
      rw [List.filter_cons_of_neg (by simp [hb])]
      conv_rhs => rw [show assembleGo meds cur (e :: rest) =
        (match medStep meds cur e.1 e.2 with
          | .error err => .error err
          | .ok (meds', cur') => assembleGo meds' cur' rest) from rfl]
      rw [hstep]
      exact ih meds cur
    · rw [List.filter_cons_of_pos (by simp [bool_eq_false hb])]
      simp only [assembleGo]
      cases hstep : medStep meds cur e.1 e.2 with
      | error err => rfl
      | ok p => exact ih p.1 p.2

/-! ## C6: the adjacency-merge pass -/

/-- C6: `merge_medication_entities` scans left to right, merges exactly the
immediately adjacent span pairs (start of `i+1` = end of `i`) into a single
entity carrying span `i`'s label and the space-joined text, consumes both
spans of a merged pair (single-level merge), and passes non-adjacent spans
through unmerged — i.e. it computes `mergeAdjacentSpec`. -/
theorem C6_merge_adjacent_spec (ents : List EntitySpan) :
    merge_medication_entities ents = mergeAdjacentSpec ents := by
  unfold merge_medication_entities
  induction ents using mergeAdjacentSpec.induct with
  | case1 => rfl
  | case2 e => rfl
  | case3 e e' rest h ih =>
    simp only [mergeGo, mergeAdjacentSpec, if_pos h]
    exact congrArg _ ih
  | case4 e e' rest h ih =>
    simp only [mergeGo, mergeAdjacentSpec, if_neg h]
    exact congrArg _ ih

/-! ## C1: an attribute entity before any valid drug crashes the call -/

/-- C1 (code bug): if the first entity emitted by the labeler carries an
attribute label with no preceding `DRUG`, `extract_medications` does *not*
handle it as a recoverable condition: `current_med` is read before any
assignment and the call aborts with Python's `UnboundLocalError`. -/
theorem C1_orphan_attribute_crash :
    extract_medications (fun _ => [⟨"STRENGTH", "500mg", 0, 1⟩]) "Patient note" =
      .error .unboundLocal := rfl

/-! ## C2: duplicate attributes overwrite (last-write-wins) -/

/-- C2 (code bug): a second `STRENGTH` entity for the same drug *overwrites*
the first one — `current_med[label.lower()] = ent_text` assigns
unconditionally, so the policy is last-write-wins, contradicting both the
spec and the source's own comment "Merge new details without overwriting
existing ones". -/
theorem C2_duplicate_attribute_overwrites :
    extract_medications
      (fun _ => [⟨"DRUG", "Aspirin", 0, 1⟩, ⟨"STRENGTH", "100mg", 3, 4⟩,
                 ⟨"STRENGTH", "200mg", 6, 7⟩]) "note" =
      .ok (some [{ drug := "Aspirin", strength := some "200mg" }]) ∧
    (some "200mg" : Option String) ≠ some "100mg" :=
  ⟨rfl, by decide⟩

/-! ## C3: the term-dictionary builder -/

/-- C3 (counterexample): on rows `["CBC, cbc ,Xray", "MRI"]` the builder does
*not* yield `["CBC", "MRI", "Xray"]`; deduplication is case-sensitive, so the
lowercase `"cbc"` survives as a fourth term. -/
theorem C3_counterexample :
    expand_terms [some "CBC, cbc ,Xray", some "MRI"] ≠ ["CBC", "MRI", "Xray"] ∧
    expand_terms [some "CBC, cbc ,Xray", some "MRI"] = ["CBC", "MRI", "Xray", "cbc"] := by
  constructor <;> decide

/-- C3 (amended): for each non-null row the builder splits the cell on
commas, trims each piece, discards empty pieces, deduplicates the survivors
(case-sensitively) and returns them sorted by code-point order; on rows
`["CBC, cbc ,Xray", "MRI"]` it yields the sorted list
`["CBC", "MRI", "Xray", "cbc"]` — `"cbc"` is kept as distinct from `"CBC"`. -/
theorem C3_expand_terms_characterization :
    (∀ series : List (Option String),
      List.Chain' (fun a b => pyStrLe a b = true) (expand_terms series) ∧
      (expand_terms series).Nodup ∧
      (∀ s, s ∈ expand_terms series ↔
        s ≠ "" ∧ ∃ c, some c ∈ series ∧ ∃ piece ∈ splitComma c, pyStrip piece = s)) ∧
    expand_terms [some "CBC, cbc ,Xray", some "MRI"] = ["CBC", "MRI", "Xray", "cbc"] := by
  constructor
  · intro series
    refine ⟨pySort_chain _, ((pySort_perm _).nodup_iff).2 (List.nodup_dedup _), ?_⟩
    intro s
    unfold expand_terms
    rw [(pySort_perm _).mem_iff, List.mem_dedup]
    simp only [List.mem_flatMap, List.mem_filterMap, List.mem_filter, List.mem_map,
      id_eq, decide_not, Bool.not_eq_eq_eq_not, Bool.not_true, decide_eq_false_iff_not]
    constructor
    · rintro ⟨cell, ⟨o, ho, hoc⟩, ⟨⟨piece, hpiece, hps⟩, hne⟩⟩
      exact ⟨hne, cell, by rwa [hoc] at ho, piece, hpiece, hps⟩
    · rintro ⟨hne, cell, hcell, piece, hpiece, hps⟩
      exact ⟨cell, ⟨some cell, hcell, rfl⟩, ⟨⟨piece, hpiece, hps⟩, hne⟩⟩
  · decide

/-! ## C5: case-insensitive uniqueness of drug names -/

/-- C5: in every record list produced by `extract_medications`, the `drug`
field is unique case-insensitively; a `DRUG` entity whose name matches an
existing record case-insensitively resumes that record instead of appending
a new one. -/
theorem C5_drug_unique_case_insensitive (label : String → List EntitySpan)
    (text : String) (recs : List MedicationRecord)
    (h : extract_medications label text = .ok (some recs)) :
    List.Pairwise (fun a b => pyLower a.drug ≠ pyLower b.drug) recs :=
  (assembleGo_inv _ [] none recs (extract_ok_meds h) (by simp) (by simp)).1

/-- Witness for C5: `"Aspirin"` and `"aspirin"` yield exactly one record
(the later occurrence resumed the existing record, which then received the
strength attribute), and the theorem applies to that concrete run. -/
theorem C5_witness :
    extract_medications
      (fun _ => [⟨"DRUG", "Aspirin", 0, 1⟩, ⟨"DRUG", "aspirin", 5, 6⟩,
                 ⟨"STRENGTH", "100mg", 9, 10⟩]) "note" =
      .ok (some [{ drug := "Aspirin", strength := some "100mg" }]) ∧
    List.Pairwise (fun a b => pyLower a.drug ≠ pyLower b.drug)
      [({ drug := "Aspirin", strength := some "100mg" } : MedicationRecord)] :=
  ⟨rfl, C5_drug_unique_case_insensitive
    (fun _ => [⟨"DRUG", "Aspirin", 0, 1⟩, ⟨"DRUG", "aspirin", 5, 6⟩,
               ⟨"STRENGTH", "100mg", 9, 10⟩]) "note"
    [{ drug := "Aspirin", strength := some "100mg" }] rfl⟩

/-! ## C7: the invalid-name block list -/

/-- C7: a `DRUG` entity whose text equals, case-insensitively, an entry of
the block list (`{"generic"}`) never produces a `MedicationRecord`: every
record in the output has a drug name off the block list. -/
theorem C7_blocklisted_drug_filtered (label : String → List EntitySpan)
    (text : String) (recs : List MedicationRecord)
    (h : extract_medications label text = .ok (some recs)) :
    ∀ r ∈ recs, pyLower r.drug ∉ INVALID_DRUGS :=
  (assembleGo_inv _ [] none recs (extract_ok_meds h) (by simp) (by simp)).2

/-- Witness for C7: a `"Generic"` drug span is dropped entirely and the
theorem applies to that concrete run. -/
theorem C7_witness :
    extract_medications
      (fun _ => [⟨"DRUG", "Generic", 0, 1⟩, ⟨"DRUG", "Aspirin", 3, 4⟩]) "note" =
      .ok (some [{ drug := "Aspirin" }]) ∧
    ∀ r ∈ [({ drug := "Aspirin" } : MedicationRecord)], pyLower r.drug ∉ INVALID_DRUGS :=
  ⟨rfl, C7_blocklisted_drug_filtered
    (fun _ => [⟨"DRUG", "Generic", 0, 1⟩, ⟨"DRUG", "Aspirin", 3, 4⟩]) "note"
    [{ drug := "Aspirin" }] rfl⟩

/-! ## C4: null versus empty list -/

/-- C4 (counterexample): an entity sequence with zero `DRUG` entities — a
lone orphan `STRENGTH` attribute — does *not* make `extract_medications`
return null: the call aborts with `UnboundLocalError` instead. -/
theorem C4_counterexample :
    (∀ e ∈ merge_medication_entities [⟨"STRENGTH", "500mg", 0, 1⟩], e.1 ≠ "DRUG") ∧
    extract_medications (fun _ => [⟨"STRENGTH", "500mg", 0, 1⟩]) "note" =
      .error .unboundLocal ∧
    extract_medications (fun _ => [⟨"STRENGTH", "500mg", 0, 1⟩]) "note" ≠ .ok none := by
  refine ⟨by decide, rfl, fun hcontra => ?_⟩
  rw [show extract_medications (fun _ => [⟨"STRENGTH", "500mg", 0, 1⟩]) "note" =
    .error .unboundLocal from rfl] at hcontra
  exact nomatch hcontra

/-- C4 (amended): provided no attribute entity precedes the first valid
`DRUG` entity (the orphan-attribute fault of C1 cannot fire),
`extract_medications` returns null — never an empty list — when the merged
entity sequence contains zero valid `DRUG` entities, and a non-empty record
list when at least one valid drug is present. -/
theorem C4_null_iff_no_valid_drug (label : String → List EntitySpan)
    (text : String) (ents : List (String × String))
    (hents : merge_medication_entities (label (clean_text text)) = ents)
    (hno : noOrphanAttr ents = true) :
    ((∀ e ∈ ents, isValidDrugEnt e = false) →
      extract_medications label text = .ok none) ∧
    ((∃ e ∈ ents, isValidDrugEnt e = true) →
      ∃ recs, extract_medications label text = .ok (some recs) ∧ recs ≠ []) := by
  constructor
  · intro hall
    unfold extract_medications assemble
    rw [hents, assembleGo_all_inert ents hall hno [] none]
    rfl
  · intro hex
    obtain ⟨recs, hrec, hne⟩ := assemble_has_valid ents hno hex
    refine ⟨recs, ?_, hne⟩
    unfold extract_medications assemble
    rw [hents, hrec]
    cases recs with
    | nil => exact absurd rfl hne
    | cons a l => rfl

/-- Witness for C4: a single block-listed `"Generic"` drug span is a
sequence with zero *valid* drug entities, and the call returns null. -/
theorem C4_witness :
    extract_medications (fun _ => [⟨"DRUG", "Generic", 0, 1⟩]) "note" = .ok none :=
  (C4_null_iff_no_valid_drug (fun _ => [⟨"DRUG", "Generic", 0, 1⟩]) "note"
    [("DRUG", "Generic")] rfl rfl).1 (by decide)

/-! ## C8: null semantics of `extract_tests` -/

/-- Behaviour of one output bucket of `extract_tests`: null exactly when no
match carries the bucket's tag, and otherwise the deduplicated matched
texts. -/
lemma bucketOf_spec (xs : List (String × String)) (tag : String) :
    ((if ((xs.filter (fun p => p.1 = tag)).map Prod.snd).dedup.isEmpty then none
      else some ((xs.filter (fun p => p.1 = tag)).map Prod.snd).dedup) = none ↔
      xs.filter (fun p => p.1 = tag) = []) ∧
    (∀ l, (if ((xs.filter (fun p => p.1 = tag)).map Prod.snd).dedup.isEmpty then none
      else some ((xs.filter (fun p => p.1 = tag)).map Prod.snd).dedup) = some l →
      l.Nodup ∧ l ≠ [] ∧ ∀ s, s ∈ l ↔ (tag, s) ∈ xs) := by
  constructor
  · by_cases hf : xs.filter (fun p => p.1 = tag) = []
    · simp [hf]
    · have hne : ¬((xs.filter (fun p => p.1 = tag)).map Prod.snd).dedup.isEmpty = true := by
        simp [List.isEmpty_iff, List.dedup_eq_nil, List.map_eq_nil_iff, hf]
      rw [if_neg hne]
      simp [hf]
  · intro l hl
    by_cases he : ((xs.filter (fun p => p.1 = tag)).map Prod.snd).dedup.isEmpty = true
    · rw [if_pos he] at hl; nomatch hl
    · rw [if_neg he] at hl
      rw [Option.some.injEq] at hl
      subst hl
      refine ⟨List.nodup_dedup _, fun hnil => he (by rw [hnil]; rfl), ?_⟩
      intro s
      rw [List.mem_dedup, List.mem_map]
      constructor
      · rintro ⟨⟨t1, t2⟩, hp, rfl⟩
        have hmem := List.mem_filter.1 hp
        have ht : t1 = tag := by simpa using hmem.2
        exact ht ▸ hmem.1
      · intro hs
        exact ⟨(tag, s), List.mem_filter.2 ⟨hs, by simp⟩, rfl⟩

/-- C8: `extract_tests` returns a pair in which each side is null exactly
when its set of matches is empty, independently of the other side; matches
are deduplicated per category; and when both term lists are empty no rule is
added, the matcher has nothing to match, and both outputs are null. -/
theorem C8_extract_tests_null_semantics (m : Matcher) (text : String)
    (pt rt : List String)
    (hm : m [] (clean_text text) = []) :
    (pt = [] → rt = [] → extract_tests m text pt rt = (none, none)) ∧
    ((extract_tests m text pt rt).1 = none ↔
      (m (testPatterns pt rt) (clean_text text)).filter
        (fun p => p.1 = "PATHOLOGY TEST") = []) ∧
    ((extract_tests m text pt rt).2 = none ↔
      (m (testPatterns pt rt) (clean_text text)).filter
        (fun p => p.1 = "RADIOLOGY TEST") = []) ∧
    (∀ l, (extract_tests m text pt rt).1 = some l →
      l.Nodup ∧ l ≠ [] ∧
      ∀ s, s ∈ l ↔ ("PATHOLOGY TEST", s) ∈ m (testPatterns pt rt) (clean_text text)) ∧
    (∀ l, (extract_tests m text pt rt).2 = some l →
      l.Nodup ∧ l ≠ [] ∧
      ∀ s, s ∈ l ↔ ("RADIOLOGY TEST", s) ∈ m (testPatterns pt rt) (clean_text text)) := by
  refine ⟨?_, ?_, ?_, ?_, ?_⟩
  · rintro rfl rfl
    simp [extract_tests, testPatterns, hm]
  · exact (bucketOf_spec (m (testPatterns pt rt) (clean_text text)) "PATHOLOGY TEST").1
  · exact (bucketOf_spec (m (testPatterns pt rt) (clean_text text)) "RADIOLOGY TEST").1
  · exact (bucketOf_spec (m (testPatterns pt rt) (clean_text text)) "PATHOLOGY TEST").2
  · exact (bucketOf_spec (m (testPatterns pt rt) (clean_text text)) "RADIOLOGY TEST").2

/-- Witness for C8: with both term lists empty, a matcher that emits one
match per configured phrase is given no rules and both outputs are null. -/
theorem C8_witness :
    extract_tests (fun pats _ => pats.flatMap (fun cp => cp.2.map (fun t => (cp.1, t))))
      "x" [] [] = (none, none) :=
  (C8_extract_tests_null_semantics
    (fun pats _ => pats.flatMap (fun cp => cp.2.map (fun t => (cp.1, t))))
    "x" [] [] rfl).1 rfl rfl

/-! ## C10: a skipped drug leaves the current-record pointer unchanged -/

/-- C10: a block-listed `DRUG` entity is processed with the loop state
completely untouched (filtering such entities out of the stream changes
nothing), so attribute entities that follow it are attached to the most
recently created or resumed earlier valid drug's record rather than being
dropped; concretely, `"100mg"` after the skipped `"Generic"` lands on the
`"Aspirin"` record. -/
theorem C10_blocked_drug_keeps_current (ents : List (String × String)) :
    assemble (ents.filter (fun e => !isBlockedDrug e)) = assemble ents ∧
    assemble [("DRUG", "Aspirin"), ("DRUG", "Generic"), ("STRENGTH", "100mg")] =
      .ok (some [{ drug := "Aspirin", strength := some "100mg" }]) := by
  constructor
  · unfold assemble
    rw [assembleGo_filter_blocked]
  · rfl

/-! ## C9: the normalizer -/

lemma collapseGo_cons_space_true {c : Char} (hc : isPySpace c = true) (rest : List Char) :
    collapseGo true (c :: rest) = collapseGo true rest := by
  simp only [collapseGo]
  rw [if_pos hc]
  simp

lemma collapseGo_cons_space_false {c : Char} (hc : isPySpace c = true) (rest : List Char) :
    collapseGo false (c :: rest) = ' ' :: collapseGo true rest := by
  simp only [collapseGo]
  rw [if_pos hc]
  simp

lemma collapseGo_cons_nonspace {c : Char} (hc : isPySpace c = false) (b : Bool)
    (rest : List Char) :
    collapseGo b (c :: rest) = c :: collapseGo false rest := by
  simp only [collapseGo]
  rw [if_neg (by rw [hc]; exact Bool.false_ne_true)]

/-- After collapsing, no two adjacent characters are both whitespace; and
while inside a whitespace run the emitted remainder starts with a
non-whitespace character. -/
lemma chain_collapseGo :
    ∀ (l : List Char) (b : Bool),
      List.Chain' (fun a c => ¬(isPySpace a = true ∧ isPySpace c = true)) (collapseGo b l) ∧
      (b = true → ∀ c, (collapseGo b l).head? = some c → isPySpace c = false) := by
  intro l
  induction l with
  | nil =>
    intro b
    refine ⟨by cases b <;> simp [collapseGo], ?_⟩
    intro _ c hc
    cases b <;> exact nomatch hc
  | cons ch rest ih =>
    intro b
    by_cases hc : isPySpace ch = true
    · cases b with
      | true =>
        rw [collapseGo_cons_space_true hc]
        exact ⟨(ih true).1, fun _ => (ih true).2 rfl⟩
      | false =>
        rw [collapseGo_cons_space_false hc]
        refine ⟨?_, fun h => nomatch h⟩
        refine List.chain'_cons'.2 ⟨?_, (ih true).1⟩
        intro y hy
        have hy' : isPySpace y = false := (ih true).2 rfl y (Option.mem_def.1 hy)
        rintro ⟨_, hy2⟩
        rw [hy'] at hy2
        exact nomatch hy2
    · have hcf : isPySpace ch = false := bool_eq_false hc
      rw [collapseGo_cons_nonspace hcf]
      constructor
      · refine List.chain'_cons'.2 ⟨?_, (ih false).1⟩
        intro y _
        rintro ⟨h1, _⟩
        rw [hcf] at h1
        exact nomatch h1
      · intro _ c hc2
        rw [List.head?_cons, Option.some.injEq] at hc2
        rw [← hc2]
        exact hcf

lemma chain_dropWhile {R : Char → Char → Prop} (q : Char → Bool) :
    ∀ l : List Char, List.Chain' R l → List.Chain' R (l.dropWhile q) := by
  intro l
  induction l with
  | nil => exact fun h => h
  | cons a t ih =>
    intro h
    by_cases hq : q a = true
    · rw [List.dropWhile_cons_of_pos hq]
      exact ih (List.chain'_cons'.1 h).2
    · rw [List.dropWhile_cons_of_neg hq]
      exact h

lemma chain_reverse_symm {R : Char → Char → Prop} (hsymm : ∀ a b, R a b → R b a)
    (l : List Char) (h : List.Chain' R l) : List.Chain' R l.reverse :=
  List.chain'_reverse.2 (h.imp (fun a b hab => hsymm a b hab))

lemma chain_pyStripChars {R : Char → Char → Prop} (hsymm : ∀ a b, R a b → R b a)
    (l : List Char) (h : List.Chain' R l) : List.Chain' R (pyStripChars l) := by
  unfold pyStripChars
  exact chain_reverse_symm hsymm _
    (chain_dropWhile _ _ (chain_reverse_symm hsymm _ (chain_dropWhile _ _ h)))

/-- A single application of the normalizer already yields a string with no
two adjacent whitespace characters. -/
lemma clean_text_chain (s : String) :
    List.Chain' (fun a c => ¬(isPySpace a = true ∧ isPySpace c = true))
      (clean_text s).data := by
  have hsymm : ∀ a b : Char, ¬(isPySpace a = true ∧ isPySpace b = true) →
      ¬(isPySpace b = true ∧ isPySpace a = true) := fun a b h hh => h ⟨hh.2, hh.1⟩
  exact chain_pyStripChars hsymm _ (chain_collapseGo (insertBoundaries s.data) false).1

lemma dw_head :
    ∀ (l : List Char) (c : Char),
      (l.dropWhile isPySpace).head? = some c → isPySpace c = false := by
  intro l
  induction l with
  | nil => exact fun c hc => nomatch hc
  | cons h t ih =>
    intro c hc
    by_cases hp : isPySpace h = true
    · rw [List.dropWhile_cons_of_pos hp] at hc
      exact ih c hc
    · rw [List.dropWhile_cons_of_neg hp] at hc
      rw [List.head?_cons, Option.some.injEq] at hc
      rw [← hc]
      exact bool_eq_false hp

lemma dw_self (l : List Char)
    (h : ∀ c, l.head? = some c → isPySpace c = false) :
    l.dropWhile isPySpace = l := by
  cases l with
  | nil => rfl
  | cons a t =>
    rw [List.dropWhile_cons_of_neg]
    intro hh
    rw [h a rfl] at hh
    exact nomatch hh

lemma dw_sfx : ∀ l : List Char, ∃ t, t ++ l.dropWhile isPySpace = l := by
  intro l
  induction l with
  | nil => exact ⟨[], rfl⟩
  | cons a rest ih =>
    by_cases hp : isPySpace a = true
    · obtain ⟨t, ht⟩ := ih
      exact ⟨a :: t, by rw [List.dropWhile_cons_of_pos hp, List.cons_append, ht]⟩
    · exact ⟨[], by rw [List.dropWhile_cons_of_neg hp]; exact List.nil_append _⟩

/-- The string produced by `pyStripChars` starts with a non-whitespace
character (when non-empty). -/
lemma pyStripChars_head (l : List Char) :
    ∀ c, (pyStripChars l).head? = some c → isPySpace c = false := by
  intro c hc
  unfold pyStripChars at hc
  rw [List.head?_reverse] at hc
  obtain ⟨t, ht⟩ := dw_sfx ((l.dropWhile isPySpace).reverse)
  have hX : ((l.dropWhile isPySpace).reverse).getLast? = some c := by
    rw [← ht, List.getLast?_append, hc]
    rfl
  rw [List.getLast?_reverse] at hX
  exact dw_head l c hX

/-- The string produced by `pyStripChars` ends with a non-whitespace
character (when non-empty). -/
lemma pyStripChars_getLast (l : List Char) :
    ∀ c, (pyStripChars l).getLast? = some c → isPySpace c = false := by
  intro c hc
  unfold pyStripChars at hc
  rw [List.getLast?_reverse] at hc
  exact dw_head _ c hc

lemma pyStripChars_idem (l : List Char) :
    pyStripChars (pyStripChars l) = pyStripChars l := by
  have h1 : (pyStripChars l).dropWhile isPySpace = pyStripChars l :=
    dw_self _ (pyStripChars_head l)
  have h2 : (pyStripChars l).reverse.dropWhile isPySpace = (pyStripChars l).reverse := by
    apply dw_self
    intro c hc
    rw [List.head?_reverse] at hc
    exact pyStripChars_getLast l c hc
  show (((pyStripChars l).dropWhile isPySpace).reverse.dropWhile isPySpace).reverse =
    pyStripChars l
  rw [h1, h2, List.reverse_reverse]

/-- C9: applying the normalizer twice (already once, in fact) yields a string
with no two consecutive space characters and no leading or trailing
whitespace: stripping `clean_text (clean_text t)` changes nothing. -/
theorem C9_normalizer_idempotent_whitespace (t : String) :
    List.Chain' (fun a b => ¬(a = ' ' ∧ b = ' ')) (clean_text (clean_text t)).data ∧
    pyStrip (clean_text (clean_text t)) = clean_text (clean_text t) := by
  constructor
  · refine List.Chain'.imp ?_ (clean_text_chain (clean_text t))
    intro a b hab
    rintro ⟨ha, hb⟩
    refine hab ⟨?_, ?_⟩
    · rw [ha]; decide
    · rw [hb]; decide
  · show String.mk (pyStripChars (clean_text (clean_text t)).data) =
      clean_text (clean_text t)
    have hdata : (clean_text (clean_text t)).data =
        pyStripChars (collapseGo false (insertBoundaries ((clean_text t).data))) := rfl
    rw [hdata, pyStripChars_idem]
    rfl

end App
